import Mathlib

/-!
Verification of the CropDoc training script (`src/modal.py`).

The script is a straight-line sequence of framework calls: load an image
dataset from the directory `dataset`, normalize pixels by `x/255.0`, build a
fixed `Sequential` convolutional model, compile it with the Adam optimizer and
sparse categorical cross-entropy, train for 5 epochs, and save the model to
`leaf_model.h5`.

Pure numeric values are embedded as rationals.  The framework primitives the
script calls (`image_dataset_from_directory`, `Dataset.map`, `fit`,
`model.save`) are not part of this repository; their behaviour is modelled
from the specification, with the script's literal arguments (directory name,
image size, batch size, layer list, compile configuration, epoch count, save
path) taken from the source.
-/

namespace CropDoc

/-- Pixel normalization from `src/modal.py` line 18: the lambda `x/255.0`
applied elementwise. -/
def normalize (p : ℚ) : ℚ := p / 255

/-- An image tensor: spatial dimensions plus a flattened list of channel
values. -/
structure Image where
  height : ℕ
  width : ℕ
  data : List ℚ
deriving DecidableEq, Repr

/-- Elementwise application of `normalize` to every pixel value of an image. -/
def normalizeImage (im : Image) : Image :=
  { im with data := im.data.map normalize }

/-- One batch produced by the loader: a list of image tensors `x` paired with
the parallel list of integer labels `y`. -/
structure Batch where
  images : List Image
  labels : List ℕ
deriving DecidableEq, Repr

/-- `src/modal.py` line 18: the mapped function `lambda x, y: (x/255.0, y)`
on one batch. -/
def normalizeBatch (b : Batch) : Batch :=
  { images := b.images.map normalizeImage, labels := b.labels }

/-- A dataset is the list of batches it yields in one pass. -/
abbrev Dataset := List Batch

/-- `tf.data.Dataset.map`: applies a function to every batch. -/
def mapDataset (f : Batch → Batch) (ds : Dataset) : Dataset := ds.map f

/-- `src/modal.py` line 8. -/
def img_size : ℕ × ℕ := (224, 224)

/-- `src/modal.py` line 9. -/
def batch_size : ℕ := 32

/-- `src/modal.py` line 7: the root directory name. -/
def data_dir : String := "dataset"

/-- An on-disk dataset directory: each immediate subdirectory is a class
label, holding that class's readable image files.  A missing root directory
is represented as `none` at the call sites. -/
structure Directory where
  classes : List (String × List Image)
deriving DecidableEq, Repr

/-- Resizing an image to the requested spatial resolution (the pixel payload
is kept opaque: only the shape matters to the claims). -/
def resizeImage (sz : ℕ × ℕ) (im : Image) : Image :=
  { im with height := sz.1, width := sz.2 }

/-- All readable `(image, label)` pairs of a directory, labels being indices
into the subdirectory enumeration order. -/
def labeledImages (d : Directory) : List (Image × ℕ) :=
  (d.classes.enum.map fun p => p.2.2.map fun im => (im, p.1)).flatten

/-- Fuel-based batching: split a list into consecutive chunks of at most `n`
elements (the fuel is the list length at the top-level call). -/
def chunkAux {α : Type} (n : ℕ) : ℕ → List α → List (List α)
  | 0, _ => []
  | _ + 1, [] => []
  | fuel + 1, x :: xs => ((x :: xs).take n) :: chunkAux n fuel ((x :: xs).drop n)

/-- Split a list into consecutive chunks of at most `n` elements. -/
def chunkList {α : Type} (n : ℕ) (xs : List α) : List (List α) :=
  chunkAux n xs.length xs

/-- Regroup a chunk of `(image, label)` pairs as one batch. -/
def toBatch (xs : List (Image × ℕ)) : Batch :=
  ⟨xs.map Prod.fst, xs.map Prod.snd⟩

/-- Modelled from the spec: `tf.keras.utils.image_dataset_from_directory`
(called at `src/modal.py` lines 11–15) is framework code, not part of this
repository.  Per the spec (§4.1, §7) it fails with a configuration error if
the root directory is missing or contains no readable images; otherwise it
resizes each image to the given resolution and groups the `(image, label)`
pairs into batches of the given size, with labels drawn from the
subdirectory enumeration order. -/
def image_dataset_from_directory : Option Directory → ℕ × ℕ → ℕ → Except String Dataset
  | none, _, _ => Except.error "configuration error: directory missing"
  | some d, sz, bs =>
    let items := (labeledImages d).map fun p => (resizeImage sz p.1, p.2)
    if items.isEmpty then Except.error "configuration error: no readable images"
    else Except.ok ((chunkList bs items).map toBatch)

/-- `src/modal.py` lines 11–15: the loader call with the script's literal
arguments. -/
def load_train_ds (dir : Option Directory) : Except String Dataset :=
  image_dataset_from_directory dir img_size batch_size

/-- `src/modal.py` line 18: the normalization map over the loaded dataset. -/
def train_ds (dir : Option Directory) : Except String Dataset :=
  (load_train_ds dir).map (mapDataset normalizeBatch)

/-- Layer activations used by the script. -/
inductive Activation where
  | relu
  | softmax
deriving DecidableEq, Repr

/-- The Keras layer constructors the script uses, with the arguments the
script passes. -/
inductive Layer where
  | conv2D (filters : ℕ) (kernel : ℕ × ℕ) (act : Activation) (input_shape : Option (ℕ × ℕ × ℕ))
  | maxPooling2D
  | flatten
  | dense (units : ℕ) (act : Activation)
deriving DecidableEq, Repr

/-- `src/modal.py` lines 21–29: the `keras.Sequential` layer list, verbatim. -/
def model : List Layer := [
  Layer.conv2D 32 (3, 3) Activation.relu (some (224, 224, 3)),
  Layer.maxPooling2D,
  Layer.conv2D 64 (3, 3) Activation.relu none,
  Layer.maxPooling2D,
  Layer.flatten,
  Layer.dense 128 Activation.relu,
  Layer.dense 2 Activation.softmax]

/-- The layer sequence exactly as the spec's §4.3 sentence describes it,
parametrized by the output width `N` the spec names (for refinement against
`model`). -/
def specLayers (N : ℕ) : List Layer := [
  Layer.conv2D 32 (3, 3) Activation.relu (some (224, 224, 3)),
  Layer.maxPooling2D,
  Layer.conv2D 64 (3, 3) Activation.relu none,
  Layer.maxPooling2D,
  Layer.flatten,
  Layer.dense 128 Activation.relu,
  Layer.dense N Activation.softmax]

/-- Tensor shapes flowing between layers. -/
inductive Shape where
  | tensor3 (h w c : ℕ)
  | vec (n : ℕ)
deriving DecidableEq, Repr

/-- Shape semantics of one layer (Keras defaults: valid-padded 2-D
convolution, 2×2 max-pooling with stride 2, flatten, dense). -/
def applyLayer : Shape → Layer → Option Shape
  | Shape.tensor3 h w _, Layer.conv2D f (kh, kw) _ _ =>
    if kh ≤ h ∧ kw ≤ w then some (Shape.tensor3 (h - kh + 1) (w - kw + 1) f) else none
  | Shape.tensor3 h w c, Layer.maxPooling2D => some (Shape.tensor3 (h / 2) (w / 2) c)
  | Shape.tensor3 h w c, Layer.flatten => some (Shape.vec (h * w * c))
  | Shape.vec _, Layer.dense u _ => some (Shape.vec u)
  | _, _ => none

/-- Shape of the output of a layer stack on a given input shape, `none` when
some layer rejects its input shape. -/
def forwardShape (ls : List Layer) (s : Shape) : Option Shape :=
  ls.foldl (fun acc l => acc.bind fun s0 => applyLayer s0 l) (some s)

/-- Width of the final (output) layer of a stack, when it is a dense layer. -/
def outputUnits (ls : List Layer) : Option ℕ :=
  match ls.getLast? with
  | some (Layer.dense u _) => some u
  | _ => none

/-- Number of classes the loader discovers: one per label subdirectory. -/
def numClasses (d : Directory) : ℕ := d.classes.length

/-- Optimizer choices relevant to the script. -/
inductive OptimizerKind where
  | adam
  | sgd
deriving DecidableEq, Repr

/-- Loss choices relevant to the script. -/
inductive LossKind where
  | sparse_categorical_crossentropy
  | categorical_crossentropy
deriving DecidableEq, Repr

/-- The `model.compile(...)` keyword arguments. -/
structure CompileConfig where
  optimizer : OptimizerKind
  loss : LossKind
  metrics : List String
deriving DecidableEq, Repr

/-- `src/modal.py` line 31: `model.compile(optimizer='adam',
loss='sparse_categorical_crossentropy', metrics=['accuracy'])`. -/
def compileConfig : CompileConfig :=
  ⟨OptimizerKind.adam, LossKind.sparse_categorical_crossentropy, ["accuracy"]⟩

/-- One-hot encoding of label `y` over `n` classes. -/
def oneHot : ℕ → ℕ → List ℚ
  | 0, _ => []
  | n + 1, 0 => 1 :: List.replicate n 0
  | n + 1, y + 1 => 0 :: oneHot n y

/-- Categorical cross-entropy `-Σ yᵢ · log pᵢ` between a one-hot (or soft)
label vector and predicted class probabilities, over an abstract logarithm. -/
def categoricalCrossentropy (log : ℚ → ℚ) (yhot p : List ℚ) : ℚ :=
  -((List.zipWith (fun a b => a * log b) yhot p).sum)

/-- Sparse categorical cross-entropy `-log p_y` between an integer label and
predicted class probabilities, over an abstract logarithm. -/
def sparseCategoricalCrossentropy (log : ℚ → ℚ) (y : ℕ) (p : List ℚ) : ℚ :=
  -(log (p.getD y 0))

/-- Per-example loss value selected by the compile configuration. -/
def lossValue (k : LossKind) (log : ℚ → ℚ) (y : ℕ) (p : List ℚ) : ℚ :=
  match k with
  | LossKind.sparse_categorical_crossentropy => sparseCategoricalCrossentropy log y p
  | LossKind.categorical_crossentropy => categoricalCrossentropy log (oneHot p.length y) p

/-- What the trainer records for one processed batch: the per-example loss
values it computed and the optimizer whose rule performed the update. -/
structure BatchRecord where
  losses : List ℚ
  optimizerUsed : OptimizerKind
deriving DecidableEq, Repr

/-- Modelled from the spec (§4.4): one training step of `model.fit` on one
batch — framework code, not part of this repository.  It computes the
compiled loss between the current predictions and the true labels and
updates the parameters via the compiled optimizer's rule.  The framework's
forward pass and parameter update are abstract oracles `predict` and
`step`. -/
def trainBatch {M : Type} (cfg : CompileConfig) (log : ℚ → ℚ)
    (predict : M → Image → List ℚ) (step : OptimizerKind → M → Batch → M)
    (m : M) (b : Batch) : M × BatchRecord :=
  let losses := (List.zip b.images b.labels).map fun q => lossValue cfg.loss log q.2 (predict m q.1)
  (step cfg.optimizer m b, ⟨losses, cfg.optimizer⟩)

/-- Modelled from the spec (§4.4): one full pass of `model.fit` over every
batch of the dataset, in order. -/
def trainEpoch {M : Type} (cfg : CompileConfig) (log : ℚ → ℚ)
    (predict : M → Image → List ℚ) (step : OptimizerKind → M → Batch → M)
    (m : M) (ds : Dataset) : M × List BatchRecord :=
  ds.foldl (fun a b =>
    let r := trainBatch cfg log predict step a.1 b
    (r.1, a.2 ++ [r.2])) (m, [])

/-- Modelled from the spec (§4.4): `model.fit(train_ds, epochs=k)` runs `k`
full passes over the dataset — no early stopping, no validation split, no
checkpointing — returning the trained parameters and per-epoch batch
records. -/
def fit {M : Type} (cfg : CompileConfig) (log : ℚ → ℚ)
    (predict : M → Image → List ℚ) (step : OptimizerKind → M → Batch → M)
    (m : M) (ds : Dataset) : ℕ → M × List (List BatchRecord)
  | 0 => (m, [])
  | k + 1 =>
    let e := trainEpoch cfg log predict step m ds
    let rest := fit cfg log predict step e.1 ds k
    (rest.1, e.2 :: rest.2)

/-- `src/modal.py` line 34: the epoch count passed to `model.fit`. -/
def epochs : ℕ := 5

/-- What `model.save` writes: the model's full topology and its parameter
values. -/
structure SavedModel where
  topology : List Layer
  params : List ℚ
deriving DecidableEq, Repr

/-- The file system visible to the script: contents per path, and which
paths are writable. -/
structure FileSystem where
  files : String → Option SavedModel
  writableAt : String → Bool

/-- `src/modal.py` line 37: the save path. -/
def savePath : String := "leaf_model.h5"

/-- Modelled from the spec (§4.5): `model.save(path)` — framework code, not
part of this repository.  It serializes the model's full topology and
parameter values to the single named file, overwriting any existing file at
that path, and fails with an I/O error if the path is unwritable. -/
def saveModel (fs : FileSystem) (path : String) (sm : SavedModel) : Except String FileSystem :=
  if fs.writableAt path then
    Except.ok ⟨fun p => if p = path then some sm else fs.files p, fs.writableAt⟩
  else Except.error "I/O error: unwritable path"

/-- Observable pipeline events, in the order the script's statements emit
them. -/
inductive Event where
  | loaded
  | preprocessed
  | modelDefined
  | epochDone (i : ℕ)
  | saved
deriving DecidableEq, Repr

/-- The events emitted once loading, preprocessing and model definition are
done and `k` training epochs have completed. -/
def trainedEvents (k : ℕ) : List Event :=
  [Event.loaded, Event.preprocessed, Event.modelDefined] ++
    (List.range k).map Event.epochDone

/-- The event trace of a run that gets through all of training. -/
def pipelineTrace : List Event := trainedEvents epochs

/-- `src/modal.py` lines 18–34 as one value: the fit result on the
normalized dataset with the script's compile configuration and epoch
count. -/
def trained {M : Type} (log : ℚ → ℚ) (predict : M → Image → List ℚ)
    (step : OptimizerKind → M → Batch → M) (m0 : M) (ds0 : Dataset) :
    M × List (List BatchRecord) :=
  fit compileConfig log predict step m0 (mapDataset normalizeBatch ds0) epochs

/-- The whole script `src/modal.py`, top to bottom: load the dataset from
the directory, normalize it, build and compile the model, fit for `epochs`
passes, save to `savePath`.  Framework internals stay the oracles of `fit`;
`serialize` renders the trained parameters for `model.save`.  Returns the
event trace and the final file system (or the framework error that aborted
the run). -/
def run {M : Type} (log : ℚ → ℚ) (predict : M → Image → List ℚ)
    (step : OptimizerKind → M → Batch → M) (serialize : M → List ℚ)
    (m0 : M) (dir : Option Directory) (fs : FileSystem) :
    List Event × Except String FileSystem :=
  match image_dataset_from_directory dir img_size batch_size with
  | Except.error e => ([], Except.error e)
  | Except.ok ds0 =>
    match saveModel fs savePath ⟨model, serialize (trained log predict step m0 ds0).1⟩ with
    | Except.error e =>
      (trainedEvents (trained log predict step m0 ds0).2.length, Except.error e)
    | Except.ok fs1 =>
      (trainedEvents (trained log predict step m0 ds0).2.length ++ [Event.saved],
        Except.ok fs1)

/-! ### Helper lemmas -/

lemma sum_zipWith_replicate_zero (log : ℚ → ℚ) :
    ∀ (n : ℕ) (p : List ℚ),
      (List.zipWith (fun a b => a * log b) (List.replicate n 0) p).sum = 0 := by
  intro n
  induction n with
  | zero => intro p; simp
  | succ k ih =>
    intro p
    cases p with
    | nil => simp
    | cons q qs => simpa [List.replicate_succ] using ih qs

lemma sparse_eq_categorical (log : ℚ → ℚ) :
    ∀ (p : List ℚ) (y : ℕ), y < p.length →
      sparseCategoricalCrossentropy log y p =
        categoricalCrossentropy log (oneHot p.length y) p := by
  intro p
  induction p with
  | nil => intro y hy; exact absurd hy (by simp)
  | cons q qs ih =>
    intro y hy
    cases y with
    | zero =>
      simp [sparseCategoricalCrossentropy, categoricalCrossentropy, oneHot,
        sum_zipWith_replicate_zero log qs.length qs]
    | succ y' =>
      have hy' : y' < qs.length := by simpa using hy
      have := ih y' hy'
      simp only [sparseCategoricalCrossentropy, categoricalCrossentropy] at this ⊢
      simp only [List.length_cons, oneHot, List.zipWith_cons_cons, List.sum_cons,
        zero_mul, zero_add, List.getD_cons_succ]
      exact this

lemma chunkAux_mem_props {α : Type} (n : ℕ) (hn : 0 < n) :
    ∀ (fuel : ℕ) (xs : List α) (c : List α), c ∈ chunkAux n fuel xs →
      c ≠ [] ∧ c.length ≤ n ∧ ∀ a ∈ c, a ∈ xs := by
  intro fuel
  induction fuel with
  | zero => intro xs c hc; simp [chunkAux] at hc
  | succ k ih =>
    intro xs c hc
    cases xs with
    | nil => simp [chunkAux] at hc
    | cons x xs' =>
      simp only [chunkAux, List.mem_cons] at hc
      rcases hc with rfl | hc
      · refine ⟨?_, ?_, ?_⟩
        · cases n with
          | zero => exact absurd hn (by simp)
          | succ m => simp
        · simp [List.length_take_le]
        · intro a ha; exact List.take_subset n (x :: xs') ha
      · obtain ⟨h1, h2, h3⟩ := ih ((x :: xs').drop n) c hc
        exact ⟨h1, h2, fun a ha => List.drop_subset n (x :: xs') (h3 a ha)⟩

lemma trainEpoch_foldl_aux {M : Type} (cfg : CompileConfig) (log : ℚ → ℚ)
    (predict : M → Image → List ℚ) (step : OptimizerKind → M → Batch → M) :
    ∀ (ds : Dataset) (m : M) (acc : List BatchRecord),
      (ds.foldl (fun a b =>
        let r := trainBatch cfg log predict step a.1 b
        (r.1, a.2 ++ [r.2])) (m, acc)).2.length = acc.length + ds.length ∧
      ∀ r ∈ (ds.foldl (fun a b =>
        let r := trainBatch cfg log predict step a.1 b
        (r.1, a.2 ++ [r.2])) (m, acc)).2,
        r ∈ acc ∨ r.optimizerUsed = cfg.optimizer := by
  intro ds
  induction ds with
  | nil => intro m acc; exact ⟨by simp, fun r hr => Or.inl hr⟩
  | cons b bs ih =>
    intro m acc
    simp only [List.foldl_cons]
    obtain ⟨hlen, hmem⟩ := ih (trainBatch cfg log predict step m b).1
      (acc ++ [(trainBatch cfg log predict step m b).2])
    constructor
    · simp only [hlen, List.length_append, List.length_cons, List.length_nil]
      omega
    · intro r hr
      rcases hmem r hr with h | h
      · rcases List.mem_append.mp h with h' | h'
        · exact Or.inl h'
        · right
          have : r = (trainBatch cfg log predict step m b).2 := by simpa using h'
          rw [this]
          rfl
      · exact Or.inr h

lemma trainEpoch_length {M : Type} (cfg : CompileConfig) (log : ℚ → ℚ)
    (predict : M → Image → List ℚ) (step : OptimizerKind → M → Batch → M)
    (m : M) (ds : Dataset) :
    (trainEpoch cfg log predict step m ds).2.length = ds.length := by
  have := (trainEpoch_foldl_aux cfg log predict step ds m []).1
  simpa [trainEpoch] using this

lemma trainEpoch_optimizer {M : Type} (cfg : CompileConfig) (log : ℚ → ℚ)
    (predict : M → Image → List ℚ) (step : OptimizerKind → M → Batch → M)
    (m : M) (ds : Dataset) :
    ∀ r ∈ (trainEpoch cfg log predict step m ds).2, r.optimizerUsed = cfg.optimizer := by
  intro r hr
  have := (trainEpoch_foldl_aux cfg log predict step ds m []).2 r (by simpa [trainEpoch] using hr)
  rcases this with h | h
  · simp at h
  · exact h

lemma fit_log_length {M : Type} (cfg : CompileConfig) (log : ℚ → ℚ)
    (predict : M → Image → List ℚ) (step : OptimizerKind → M → Batch → M) :
    ∀ (k : ℕ) (m : M) (ds : Dataset),
      (fit cfg log predict step m ds k).2.length = k := by
  intro k
  induction k with
  | zero => intro m ds; rfl
  | succ j ih => intro m ds; simp [fit, ih]

lemma fit_epoch_full {M : Type} (cfg : CompileConfig) (log : ℚ → ℚ)
    (predict : M → Image → List ℚ) (step : OptimizerKind → M → Batch → M) :
    ∀ (k : ℕ) (m : M) (ds : Dataset),
      ∀ l ∈ (fit cfg log predict step m ds k).2, l.length = ds.length := by
  intro k
  induction k with
  | zero => intro m ds l hl; simp [fit] at hl
  | succ j ih =>
    intro m ds l hl
    simp only [fit, List.mem_cons] at hl
    rcases hl with rfl | hl
    · exact trainEpoch_length cfg log predict step m ds
    · exact ih _ ds l hl

lemma fit_optimizer {M : Type} (cfg : CompileConfig) (log : ℚ → ℚ)
    (predict : M → Image → List ℚ) (step : OptimizerKind → M → Batch → M) :
    ∀ (k : ℕ) (m : M) (ds : Dataset),
      ∀ l ∈ (fit cfg log predict step m ds k).2, ∀ r ∈ l,
        r.optimizerUsed = cfg.optimizer := by
  intro k
  induction k with
  | zero => intro m ds l hl; simp [fit] at hl
  | succ j ih =>
    intro m ds l hl r hr
    simp only [fit, List.mem_cons] at hl
    rcases hl with rfl | hl
    · exact trainEpoch_optimizer cfg log predict step m ds r hr
    · exact ih _ ds l hl r hr

lemma trained_log_length {M : Type} (log : ℚ → ℚ) (predict : M → Image → List ℚ)
    (step : OptimizerKind → M → Batch → M) (m0 : M) (ds0 : Dataset) :
    (trained log predict step m0 ds0).2.length = epochs :=
  fit_log_length compileConfig log predict step epochs m0 (mapDataset normalizeBatch ds0)

/-! ### Claim theorems -/

/-- Claim C1: the model's output layer width is hard-coded to exactly 2
units, whatever directory (and hence class count) the loader discovers, and
that width agrees with the discovered class count exactly when two label
subdirectories exist. -/
theorem output_width_hardcoded_two (d : Directory) :
    outputUnits model = some 2 ∧
    (outputUnits model = some (numClasses d) ↔ numClasses d = 2) := by
  have h2 : outputUnits model = some 2 := rfl
  refine ⟨h2, ?_⟩
  rw [h2]
  exact ⟨fun h => (Option.some_inj.mp h).symm, fun h => by rw [h]⟩

/-- Claim C2: the model definition is exactly the fixed layer sequence the
spec describes — conv(32,3×3)+ReLU, max-pool, conv(64,3×3)+ReLU, max-pool,
flatten, dense(128)+ReLU, dense(2)+softmax on a 224×224×3 input, no other
layers, in this order — and that sequence maps the 224×224×3 input shape to
a width-2 output. -/
theorem model_is_exact_spec_sequence :
    model = specLayers 2 ∧
    forwardShape model (Shape.tensor3 224 224 3) = some (Shape.vec 2) :=
  ⟨rfl, by decide⟩

/-- Claim C3: the preprocessor is the pure elementwise map `p ↦ p/255`,
sending every pixel value in `[0, 255]` into `[0, 1]`. -/
theorem normalize_contract (p : ℚ) (h0 : 0 ≤ p) (h255 : p ≤ 255) :
    normalize p = p / 255 ∧ 0 ≤ normalize p ∧ normalize p ≤ 1 := by
  refine ⟨rfl, div_nonneg h0 (by norm_num), ?_⟩
  rw [normalize, div_le_one (by norm_num : (0 : ℚ) < 255)]
  exact h255

/-- Witness for C3 at the concrete pixel value 51. -/
theorem normalize_contract_witness :
    (0 : ℚ) ≤ 51 ∧ (51 : ℚ) ≤ 255 ∧
      (normalize 51 = 51 / 255 ∧ 0 ≤ normalize 51 ∧ normalize 51 ≤ 1) :=
  ⟨by norm_num, by norm_num, normalize_contract 51 (by norm_num) (by norm_num)⟩

/-- Claim C9: on an already-normalized input `p ∈ [0, 1]` the preprocessor
lands in `[0, 1/255]`, and applying it twice divides by `255²`. -/
theorem normalize_double_application (p : ℚ) (h0 : 0 ≤ p) (h1 : p ≤ 1) :
    0 ≤ normalize p ∧ normalize p ≤ 1 / 255 ∧
    normalize (normalize p) = p / 255 ^ 2 := by
  refine ⟨div_nonneg h0 (by norm_num), ?_, ?_⟩
  · rw [normalize]
    linarith
  · simp only [normalize]
    ring

/-- Witness for C9 at the concrete normalized value 1/2. -/
theorem normalize_double_application_witness :
    (0 : ℚ) ≤ 1 / 2 ∧ (1 / 2 : ℚ) ≤ 1 ∧
      (0 ≤ normalize (1 / 2) ∧ normalize (1 / 2) ≤ 1 / 255 ∧
        normalize (normalize (1 / 2)) = (1 / 2 : ℚ) / 255 ^ 2) :=
  ⟨by norm_num, by norm_num, normalize_double_application (1 / 2) (by norm_num) (by norm_num)⟩

/-- Claim C10: the `lambda x, y: (x/255.0, y)` map normalizes the image
component of every batch and returns the label component exactly as
received; across a whole dataset the per-batch labels are unchanged. -/
theorem map_preserves_labels (b : Batch) (ds : Dataset) :
    (normalizeBatch b).labels = b.labels ∧
    (normalizeBatch b).images = b.images.map normalizeImage ∧
    (mapDataset normalizeBatch ds).map Batch.labels = ds.map Batch.labels := by
  refine ⟨rfl, rfl, ?_⟩
  show (ds.map normalizeBatch).map Batch.labels = ds.map Batch.labels
  rw [List.map_map]
  exact List.map_congr_left fun b0 _ => rfl

/-- Claim C4: under the script's compile configuration every batch update
performed by `fit` uses the Adam optimizer, and the per-example loss values
a training step computes are exactly the categorical cross-entropy between
the predicted class probabilities and the (one-hot view of the) true
labels. -/
theorem trainer_adam_cce {M : Type} (log : ℚ → ℚ) (predict : M → Image → List ℚ)
    (step : OptimizerKind → M → Batch → M) (m0 m : M) (ds : Dataset) (b : Batch)
    (hvalid : ∀ q ∈ List.zip b.images b.labels, q.2 < (predict m q.1).length) :
    (∀ l ∈ (fit compileConfig log predict step m0 ds epochs).2, ∀ r ∈ l,
      r.optimizerUsed = OptimizerKind.adam) ∧
    (trainBatch compileConfig log predict step m b).2.losses =
      (List.zip b.images b.labels).map fun q =>
        categoricalCrossentropy log (oneHot (predict m q.1).length q.2) (predict m q.1) := by
  constructor
  · exact fit_optimizer compileConfig log predict step epochs m0 ds
  · show (List.zip b.images b.labels).map
        (fun q => lossValue compileConfig.loss log q.2 (predict m q.1)) = _
    refine List.map_congr_left fun q hq => ?_
    show sparseCategoricalCrossentropy log q.2 (predict m q.1) = _
    exact sparse_eq_categorical log (predict m q.1) q.2 (hvalid q hq)

/-- Witness for C4: a one-example batch with uniform predicted
probabilities, whose computed loss is `-log(1/2)` with the identity standing
in for the logarithm oracle. -/
theorem trainer_adam_cce_witness :
    (trainBatch compileConfig (fun x => x) (fun _ _ => [(1 : ℚ) / 2, 1 / 2])
      (fun _ (m : Unit) _ => m) () ⟨[⟨224, 224, []⟩], [0]⟩).2.losses =
      [categoricalCrossentropy (fun x => x) (oneHot 2 0) [(1 : ℚ) / 2, 1 / 2]] := by
  have h := @trainer_adam_cce Unit (fun x => x) (fun _ _ => [(1 : ℚ) / 2, 1 / 2])
    (fun _ m _ => m) () () [] ⟨[⟨224, 224, []⟩], [0]⟩ (by decide)
  rw [h.2]
  rfl

/-- Claim C5: with the script's epoch count, `fit` performs exactly 5 full
passes: the per-epoch log has length 5 and every epoch processes every batch
of the dataset. -/
theorem fit_five_full_epochs {M : Type} (log : ℚ → ℚ) (predict : M → Image → List ℚ)
    (step : OptimizerKind → M → Batch → M) (m : M) (ds : Dataset) :
    epochs = 5 ∧
    (fit compileConfig log predict step m ds epochs).2.length = 5 ∧
    ∀ l ∈ (fit compileConfig log predict step m ds epochs).2, l.length = ds.length :=
  ⟨rfl, fit_log_length compileConfig log predict step epochs m ds,
    fit_epoch_full compileConfig log predict step epochs m ds⟩

/-- Witness for C5 on a one-batch dataset with trivial oracles. -/
theorem fit_five_full_epochs_witness :
    (fit compileConfig (fun x => x) (fun _ _ => ([] : List ℚ))
      (fun _ (m : Unit) _ => m) () [⟨[], []⟩] epochs).2.length = 5 ∧
    ([⟨[], OptimizerKind.adam⟩] : List BatchRecord).length = 1 := by
  have h := @fit_five_full_epochs Unit (fun x => x) (fun _ _ => ([] : List ℚ))
    (fun _ m _ => m) () [⟨[], []⟩]
  exact ⟨h.2.1, h.2.2 [⟨[], OptimizerKind.adam⟩] (by decide)⟩

/-- A concrete two-class dataset directory used by witnesses. -/
def sampleDir : Directory :=
  ⟨[("healthy", [⟨100, 80, [0, 255]⟩]), ("sick", [⟨50, 60, [7]⟩])]⟩

/-- The dataset the loader produces on `sampleDir`. -/
def sampleDs : Dataset := [⟨[⟨224, 224, [0, 255]⟩, ⟨224, 224, [7]⟩], [0, 1]⟩]

/-- A file system where every path is writable. -/
def sampleFs : FileSystem := ⟨fun _ => none, fun _ => true⟩

/-- Claim C6: control flow is strictly sequential — every run's event trace
is one of the three prefixes of load → preprocess → define → 5 epochs →
save, and the model is saved only on traces where all training epochs have
already completed. -/
theorem pipeline_sequential_save_last {M : Type} (log : ℚ → ℚ)
    (predict : M → Image → List ℚ) (step : OptimizerKind → M → Batch → M)
    (serialize : M → List ℚ) (m0 : M) (dir : Option Directory) (fs : FileSystem) :
    pipelineTrace = [Event.loaded, Event.preprocessed, Event.modelDefined,
      Event.epochDone 0, Event.epochDone 1, Event.epochDone 2, Event.epochDone 3,
      Event.epochDone 4] ∧
    ((run log predict step serialize m0 dir fs).1 = [] ∨
      (run log predict step serialize m0 dir fs).1 = pipelineTrace ∨
      (run log predict step serialize m0 dir fs).1 = pipelineTrace ++ [Event.saved]) ∧
    (Event.saved ∈ (run log predict step serialize m0 dir fs).1 →
      (run log predict step serialize m0 dir fs).1 = pipelineTrace ++ [Event.saved]) := by
  have tri : (run log predict step serialize m0 dir fs).1 = [] ∨
      (run log predict step serialize m0 dir fs).1 = pipelineTrace ∨
      (run log predict step serialize m0 dir fs).1 = pipelineTrace ++ [Event.saved] := by
    simp only [run]
    split
    · exact Or.inl rfl
    · rw [trained_log_length]
      split
      · exact Or.inr (Or.inl rfl)
      · exact Or.inr (Or.inr rfl)
  refine ⟨rfl, tri, ?_⟩
  intro hmem
  rcases tri with h | h | h
  · rw [h] at hmem
    exact absurd hmem (by simp)
  · rw [h] at hmem
    exact absurd hmem (by decide)
  · exact h

/-- Witness for C6: on a present two-class directory and a writable file
system the trace is the full pipeline with the save event last. -/
theorem pipeline_sequential_save_last_witness :
    (run (fun x => x) (fun _ _ => ([] : List ℚ)) (fun _ (m : Unit) _ => m)
      (fun _ => []) () (some sampleDir) sampleFs).1 =
      pipelineTrace ++ [Event.saved] := by
  have h := @pipeline_sequential_save_last Unit (fun x => x)
    (fun _ _ => ([] : List ℚ)) (fun _ m _ => m) (fun _ => []) ()
    (some sampleDir) sampleFs
  exact h.2.2 (by decide)

/-- Claim C7: the loader errors exactly when the root directory is missing
or holds no readable images; on success every batch is nonempty with at most
`batch_size` images, labels parallel to images, and every image resized to
224×224. -/
theorem loader_error_iff_and_batches (dir : Option Directory) (d : Directory)
    (ds : Dataset)
    (hok : image_dataset_from_directory (some d) img_size batch_size = Except.ok ds) :
    ((image_dataset_from_directory dir img_size batch_size).toOption = none ↔
      dir = none ∨ ∃ d0, dir = some d0 ∧ labeledImages d0 = []) ∧
    ∀ b ∈ ds, b.images ≠ [] ∧ b.images.length ≤ batch_size ∧
      b.labels.length = b.images.length ∧
      ∀ im ∈ b.images, im.height = 224 ∧ im.width = 224 := by
  constructor
  · cases dir with
    | none => simp [image_dataset_from_directory, Except.toOption]
    | some d0 =>
      by_cases hemp : labeledImages d0 = []
      · simp [image_dataset_from_directory, Except.toOption, hemp]
      · have hne : ¬((labeledImages d0).map
            fun p => (resizeImage img_size p.1, p.2)).isEmpty = true := by
          simp [List.isEmpty_iff, hemp]
        simp [image_dataset_from_directory, Except.toOption, hne, hemp]
  · intro b hb
    simp only [image_dataset_from_directory] at hok
    by_cases hemp : ((labeledImages d).map
        fun p => (resizeImage img_size p.1, p.2)).isEmpty = true
    · rw [if_pos hemp] at hok
      exact absurd hok (by simp)
    · rw [if_neg hemp] at hok
      have hds : ds = (chunkList batch_size ((labeledImages d).map
          fun p => (resizeImage img_size p.1, p.2))).map toBatch := by
        injection hok with h
        exact h.symm
      rw [hds] at hb
      obtain ⟨c, hc, rfl⟩ := List.mem_map.mp hb
      obtain ⟨hcne, hclen, hcsub⟩ := chunkAux_mem_props batch_size (by decide)
        ((labeledImages d).map fun p => (resizeImage img_size p.1, p.2)).length
        ((labeledImages d).map fun p => (resizeImage img_size p.1, p.2)) c
        (by simpa [chunkList] using hc)
      refine ⟨?_, ?_, ?_, ?_⟩
      · show c.map Prod.fst ≠ []
        simpa using hcne
      · show (c.map Prod.fst).length ≤ batch_size
        simpa using hclen
      · show (c.map Prod.snd).length = (c.map Prod.fst).length
        simp
      · intro im him
        obtain ⟨q, hq, rfl⟩ := List.mem_map.mp him
        obtain ⟨p, _, hp⟩ := List.mem_map.mp (hcsub q hq)
        have : q.1 = resizeImage img_size p.1 := by
          rw [← hp]
        rw [this]
        exact ⟨rfl, rfl⟩

/-- Witness for C7: the missing-directory error, and the batch shape facts
on the concrete two-class directory. -/
theorem loader_error_iff_and_batches_witness :
    (image_dataset_from_directory none img_size batch_size).toOption = none ∧
    (⟨[⟨224, 224, [0, 255]⟩, ⟨224, 224, [7]⟩], [0, 1]⟩ : Batch).images.length ≤ batch_size := by
  have h := loader_error_iff_and_batches none sampleDir sampleDs (by rfl)
  exact ⟨h.1.mpr (Or.inl rfl),
    (h.2 ⟨[⟨224, 224, [0, 255]⟩, ⟨224, 224, [7]⟩], [0, 1]⟩ (by decide)).2.1⟩

/-- Claim C8: `model.save` targets the single fixed path `leaf_model.h5`;
when the path is writable it overwrites whatever is there with the model's
topology and parameters, and when it is unwritable it fails with an I/O
error. -/
theorem persister_save (fs : FileSystem) (sm : SavedModel) :
    savePath = "leaf_model.h5" ∧
    (fs.writableAt savePath = true →
      saveModel fs savePath sm =
        Except.ok ⟨fun p => if p = savePath then some sm else fs.files p, fs.writableAt⟩) ∧
    (fs.writableAt savePath = false →
      saveModel fs savePath sm = Except.error "I/O error: unwritable path") := by
  refine ⟨rfl, ?_, ?_⟩
  · intro hw
    simp [saveModel, hw]
  · intro hw
    simp [saveModel, hw]

/-- A file system whose every path already holds a file, all writable:
exhibits overwriting. -/
def occupiedFs : FileSystem := ⟨fun _ => some ⟨[], [1]⟩, fun _ => true⟩

/-- A file system where no path is writable. -/
def readOnlyFs : FileSystem := ⟨fun _ => none, fun _ => false⟩

/-- Witness for C8: saving over an occupied writable path succeeds and
replaces the file; saving to an unwritable path errors. -/
theorem persister_save_witness :
    occupiedFs.writableAt savePath = true ∧
    readOnlyFs.writableAt savePath = false ∧
    saveModel occupiedFs savePath ⟨model, []⟩ =
      Except.ok ⟨fun p => if p = savePath then some ⟨model, []⟩ else occupiedFs.files p,
        occupiedFs.writableAt⟩ ∧
    saveModel readOnlyFs savePath ⟨model, []⟩ = Except.error "I/O error: unwritable path" :=
  ⟨rfl, rfl, (persister_save occupiedFs ⟨model, []⟩).2.1 rfl,
    (persister_save readOnlyFs ⟨model, []⟩).2.2 rfl⟩

end CropDoc
